import Mathlib

/-!
Verification of the profile-reconciliation core of the ResiliencePro
repository.

The definitions below are a shallow embedding of the client-side profile
reconciliation routine `handleUserProfile` (src/contexts/AuthContext.tsx,
lines 81-329) and of the session-gated route guard `middleware`
(src/middleware.ts).  Machine state is the list of rows of the external
`profiles` table; the routine is translated as a pure function from an
identity, the current time, a fresh row identifier and the store contents
to the new store contents, the error (if any) signalled to the caller, and
the trace of store operations it attempted.

JavaScript truthiness on the optional string fields (empty string and
null are both falsy) is modelled explicitly by `truthy`, and the
`a || b` idiom by `jsOr` / `jsNull`.
-/

/-- JS truthiness of a nullable string: `null`/`undefined` and `""` are falsy. -/
def truthy : Option String → Bool
  | some s => !(s == "")
  | none => false

/-- The JS `a || b` idiom on nullable strings. -/
def jsOr (a b : Option String) : Option String :=
  if truthy a then a else b

/-- The JS `a || null` idiom on nullable strings. -/
def jsNull (a : Option String) : Option String :=
  if truthy a then a else none

/-- `email.split('@')[0]` — the local part of an email address
(AuthContext.tsx line 223). -/
def localPart (e : String) : String :=
  String.mk (e.data.takeWhile (fun c => c != '@'))

/-- The provider-supplied metadata bag of an identity
(`user.user_metadata` in the source). -/
structure UserMetadata where
  full_name : Option String
  name : Option String
  displayName : Option String
  display_name : Option String
  avatar_url : Option String
deriving DecidableEq

/-- `user.app_metadata` — only the provider field is read by the core. -/
structure AppMetadata where
  provider : Option String
deriving DecidableEq

/-- An authenticated identity as delivered by the session provider
(the `User` object of the source). -/
structure User where
  id : String
  email : Option String
  phone : Option String
  user_metadata : UserMetadata
  app_metadata : AppMetadata
deriving DecidableEq

/-- One row of the external `profiles` table.  `id` is the internal row
identifier, `uuid` the subject key; `created_at` is the store's creation
marker (absent when the column is missing, as the source anticipates at
AuthContext.tsx lines 108-116). -/
structure ProfileRow where
  id : Nat
  uuid : String
  email : Option String
  name : Option String
  phone : Option String
  providers : List String
  provider_type : Option String
  image : Option String
  roles : Option (List String)
  last_sign_in_at : Nat
  created_at : Option Nat
deriving DecidableEq

/-- The best-effort display name: first truthy of the four metadata name
variants, then the email local part (AuthContext.tsx lines 219-223, with
the identical chains at lines 168-172 and 277-281). -/
def deriveUserName (u : User) : Option String :=
  jsOr u.user_metadata.full_name
    (jsOr u.user_metadata.name
      (jsOr u.user_metadata.displayName
        (jsOr u.user_metadata.display_name
          (match u.email with
            | some e => if e == "" then none else some (localPart e)
            | none => none))))

/-- `user.app_metadata?.provider || 'google'` (AuthContext.tsx line 233). -/
def providerOf (u : User) : String :=
  match u.app_metadata.provider with
  | some p => if p == "" then "google" else p
  | none => "google"

/-- The list of roles a row carries (JS treats a null column as no roles). -/
def rolesList : Option (List String) → List String
  | some rs => rs
  | none => []

/-- `!currentProfile?.roles || !Array.isArray(...) || !roles.includes('trainer')`
(AuthContext.tsx lines 193 and 304). -/
def needTrainer : Option (List String) → Bool
  | none => true
  | some rs => !(rs.contains "trainer")

/-- `roles ? [...roles, 'trainer'] : ['trainer']`
(AuthContext.tsx lines 194-196 and 305-307). -/
def withTrainer : Option (List String) → List String
  | some rs => rs ++ ["trainer"]
  | none => ["trainer"]

/-- The update object built by the routine: `last_sign_in_at` always, plus
optionally a `name` and a `roles` field (`none` means the field is absent
from the patch, i.e. the targeted update leaves the column alone). -/
structure Patch where
  last_sign_in_at : Nat
  name : Option String
  roles : Option (List String)
deriving DecidableEq

/-- Applying a targeted update to a row: only the fields present in the
patch change. -/
def applyPatch (p : Patch) (r : ProfileRow) : ProfileRow :=
  { r with
    last_sign_in_at := p.last_sign_in_at
    name := match p.name with | some n => some n | none => r.name
    roles := match p.roles with | some rs => some rs | none => r.roles }

/-- The update object of the existing-profile branch (AuthContext.tsx lines
284-310): the name check and the role merge are both nested inside the
`if (userName)` guard, so with no derivable name the patch is
`last_sign_in_at` only. -/
def mkExistingPatch (u : User) (now : Nat) (cur : Option ProfileRow) : Patch :=
  let userName := deriveUserName u
  if truthy userName then
    let curName : Option String := cur.bind (fun r => r.name)
    let curRoles : Option (List String) := cur.bind (fun r => r.roles)
    { last_sign_in_at := now
      name := if truthy curName then none else userName
      roles := if needTrainer curRoles then some (withTrainer curRoles) else none }
  else
    { last_sign_in_at := now, name := none, roles := none }

/-- The update object of the double-check flow (AuthContext.tsx lines
181-198); here the role merge is not nested inside the name guard. -/
def mkDoubleCheckPatch (u : User) (now : Nat) (cur : Option ProfileRow) : Patch :=
  let userName := deriveUserName u
  let curName : Option String := cur.bind (fun r => r.name)
  let curRoles : Option (List String) := cur.bind (fun r => r.roles)
  { last_sign_in_at := now
    name := if truthy userName && !(truthy curName) then userName else none
    roles := if needTrainer curRoles then some (withTrainer curRoles) else none }

/-- The row inserted for a first-time identity — the `profileData` object
of AuthContext.tsx lines 228-238.  The store stamps `created_at` on
insertion. -/
def mkNewRow (u : User) (now fid : Nat) : ProfileRow :=
  { id := fid
    uuid := u.id
    email := u.email
    name := deriveUserName u
    phone := jsNull u.phone
    providers := [providerOf u]
    provider_type := some (providerOf u)
    image := jsNull u.user_metadata.avatar_url
    roles := some ["trainer"]
    last_sign_in_at := now
    created_at := some now }

/-- The comparator of the duplicate-collapse sort (AuthContext.tsx lines
110-117): creation timestamps when both rows carry one, otherwise the
internal row identifiers.  `dupLe a b` holds when the JS comparator
returns a value `<= 0` on `(a, b)`. -/
def dupLe (a b : ProfileRow) : Bool :=
  match a.created_at, b.created_at with
  | some ca, some cb => ca ≤ cb
  | _, _ => a.id ≤ b.id

/-- Stable insertion step for `sortRows`. -/
def insertRow (x : ProfileRow) : List ProfileRow → List ProfileRow
  | [] => [x]
  | y :: ys => if dupLe x y then x :: y :: ys else y :: insertRow x ys

/-- A stable sort by `dupLe`, modelling `[...allUserProfiles].sort(...)`
(JS `Array.prototype.sort` is stable). -/
def sortRows : List ProfileRow → List ProfileRow
  | [] => []
  | x :: xs => insertRow x (sortRows xs)

/-- The store operations the routine can attempt, recorded in order. -/
inductive StoreOp
  | listQuery
  | pointLookup (uuid : String)
  | fetchProfile (uuid : String)
  | deleteRow (id : Nat)
  | updateByRowId (id : Nat)
  | updateByUuid (uuid : String)
  | upsertRow (uuid : String)
deriving DecidableEq

/-- Whether a store operation writes. -/
def StoreOp.isWrite : StoreOp → Bool
  | .deleteRow _ => true
  | .updateByRowId _ => true
  | .updateByUuid _ => true
  | .upsertRow _ => true
  | _ => false

/-- The error taxonomy of the specification (§7).  The `err` component of
a run records what the routine signals to its caller: the source function
returns `Promise<void>` and wraps its whole body in `try`/`catch`
("Contain any errors within this effect", AuthContext.tsx lines 323-328),
so no run ever delivers one of these to the caller. -/
inductive ReconcileErr
  | missingIdentity
  | storeUnavailable
  | constraintViolation
deriving DecidableEq

/-- Outcome of one reconciliation run: the new store contents, the error
signalled to the caller (always `none`, see `ReconcileErr`), and the trace
of store operations attempted. -/
structure RecOut where
  store : List ProfileRow
  err : Option ReconcileErr
  ops : List StoreOp
deriving DecidableEq

/-- The rows of the store belonging to one subject —
`.from('profiles').select('*').eq('uuid', user.id)`. -/
def uRows (uid : String) (σ : List ProfileRow) : List ProfileRow :=
  σ.filter (fun r => r.uuid == uid)

/-- The profile reconciliation routine `handleUserProfile`
(AuthContext.tsx lines 81-329), one synchronous run over a consistent
store snapshot.

* `now` is the timestamp written as `new Date().toISOString()`;
* `fid` is the row identifier the store assigns on insertion;
* `listFails` injects a failure of the initial list query (line 97): the
  source logs the error and returns, attempting no write and signalling
  nothing to the caller.

Branches, in source order: duplicate collapse (lines 105-148, survivor
update is `last_sign_in_at` only), the zero-row path with its double-check
point lookup (lines 151-271, ending in the upsert keyed on `uuid`), and
the single-row existing-profile update (lines 272-322). -/
def handleUserProfile (u : User) (now fid : Nat) (listFails : Bool)
    (σ : List ProfileRow) : RecOut :=
  if listFails then
    { store := σ, err := none, ops := [StoreOp.listQuery] }
  else
    let rows := uRows u.id σ
    if 1 < rows.length then
      match sortRows rows with
      | [] => { store := σ, err := none, ops := [StoreOp.listQuery] }
      | oldest :: toDelete =>
        let afterDelete :=
          σ.filter (fun r => toDelete.all (fun d => d.id != r.id))
        let afterUpdate := afterDelete.map (fun r =>
          if r.id == oldest.id then { r with last_sign_in_at := now } else r)
        { store := afterUpdate
          err := none
          ops := StoreOp.listQuery ::
            (toDelete.map (fun d => StoreOp.deleteRow d.id) ++
              [StoreOp.updateByRowId oldest.id]) }
    else if rows.length == 0 then
      match σ.find? (fun r => r.uuid == u.id) with
      | some _ =>
        let patch := mkDoubleCheckPatch u now (σ.find? (fun r => r.uuid == u.id))
        { store := σ.map (fun r =>
            if r.uuid == u.id then applyPatch patch r else r)
          err := none
          ops := [StoreOp.listQuery, StoreOp.pointLookup u.id,
            StoreOp.fetchProfile u.id, StoreOp.updateByUuid u.id] }
      | none =>
        let newRow := mkNewRow u now fid
        let store' :=
          if σ.any (fun r => r.uuid == u.id) then
            σ.map (fun r =>
              if r.uuid == u.id then
                { newRow with id := r.id, created_at := r.created_at }
              else r)
          else σ ++ [newRow]
        { store := store'
          err := none
          ops := [StoreOp.listQuery, StoreOp.pointLookup u.id,
            StoreOp.upsertRow u.id] }
    else
      let cur := σ.find? (fun r => r.uuid == u.id)
      let patch := mkExistingPatch u now cur
      { store := σ.map (fun r =>
          if r.uuid == u.id then applyPatch patch r else r)
        err := none
        ops := if truthy (deriveUserName u) then
            [StoreOp.listQuery, StoreOp.fetchProfile u.id,
              StoreOp.updateByUuid u.id]
          else [StoreOp.listQuery, StoreOp.updateByUuid u.id] }

/-- `n` consecutive reconciliation runs for the same identity; run `k`
uses timestamp `nows k` and fresh row id `fids k`, and no store failure is
injected. -/
def iterReconcile (u : User) (nows fids : Nat → Nat) (σ : List ProfileRow) :
    Nat → List ProfileRow
  | 0 => σ
  | n + 1 =>
    (handleUserProfile u (nows n) (fids n) false (iterReconcile u nows fids σ n)).store

/-- The fields of a subject's rows that idempotence is about. -/
def projFields (r : ProfileRow) : Option String × Option (List String) × List String :=
  (r.name, r.roles, r.providers)

/-- The decision of the route guard. -/
inductive Decision
  | serve
  | redirectLogin
  | redirectHome
deriving DecidableEq

/-- `path.startsWith(pre)` of the source, on the underlying characters. -/
def pathStarts (path pre : String) : Bool :=
  pre.data.isPrefixOf path.data

/-- The session-gated route guard (src/middleware.ts): allow-list for the
OAuth callback and static assets, then the redirect logic driven by the
session-validity fact. -/
def middleware (path : String) (hasSession : Bool) : Decision :=
  if pathStarts path "/auth/callback" then .serve
  else if pathStarts path "/_next" || pathStarts path "/favicon.ico"
      || pathStarts path "/public" then .serve
  else if !hasSession && !(pathStarts path "/login") then .redirectLogin
  else if hasSession && pathStarts path "/login" then .redirectHome
  else .serve

/-- Modelled from the spec: the decision table of §4.3, as a function of
the pair (session valid, path is login route). -/
def specGuardTable (sessionValid isLoginPath : Bool) : Decision :=
  match sessionValid, isLoginPath with
  | false, false => .redirectLogin
  | false, true => .serve
  | true, false => .serve
  | true, true => .redirectHome

/-! ### Concrete fixtures used by witnesses and counterexamples -/

/-- An identity with nothing but a name-variant metadata field and an
email (a typical Google sign-in). -/
def mkUser (uid : String) (em fn prov : Option String) : User :=
  { id := uid
    email := em
    phone := none
    user_metadata :=
      { full_name := fn
        name := none
        displayName := none
        display_name := none
        avatar_url := none }
    app_metadata := { provider := prov } }

def uJane : User := mkUser "jane-uuid" (some "jane@x.com") (some "Jane Doe") (some "google")

def uBob : User := mkUser "bob-uuid" (some "bob@x.com") none none

/-- An identity with no metadata name fields and no email: no display
name is derivable for it. -/
def uNoName : User := mkUser "u1" none none none

/-- An identity for subject `u1` whose only name source is its email. -/
def uMail : User := mkUser "u1" (some "a@b.c") none none

/-- An identity whose subject id is empty. -/
def uEmptyId : User := mkUser "" (some "x@y.z") none none

/-- A profile row for subject `u1` with a human-entered name and a role
set without the default role. -/
def rowAdmin : ProfileRow :=
  { id := 11
    uuid := "u1"
    email := some "a@b.c"
    name := some "Alex"
    phone := none
    providers := ["google"]
    provider_type := some "google"
    image := none
    roles := some ["admin"]
    last_sign_in_at := 0
    created_at := some 1 }

/-- A bare duplicate row for subject `u1` with row id `i` and creation
marker `c`. -/
def rowD (i c : Nat) : ProfileRow :=
  { id := i
    uuid := "u1"
    email := none
    name := none
    phone := none
    providers := []
    provider_type := none
    image := none
    roles := none
    last_sign_in_at := 0
    created_at := some c }

/-! ### List-level helper lemmas -/

lemma find?_eq_none_of_uRows_nil (uid : String) (σ : List ProfileRow)
    (h : uRows uid σ = []) : σ.find? (fun r => r.uuid == uid) = none := by
  unfold uRows at h
  rw [List.find?_eq_none]
  exact List.filter_eq_nil_iff.mp h

lemma any_eq_false_of_uRows_nil (uid : String) (σ : List ProfileRow)
    (h : uRows uid σ = []) : σ.any (fun r => r.uuid == uid) = false := by
  unfold uRows at h
  rw [Bool.eq_false_iff]
  intro hany
  obtain ⟨x, hx, hp⟩ := List.any_eq_true.mp hany
  exact List.filter_eq_nil_iff.mp h x hx hp

lemma find?_of_uRows_singleton (uid : String) (σ : List ProfileRow) (r : ProfileRow)
    (h : uRows uid σ = [r]) : σ.find? (fun r => r.uuid == uid) = some r := by
  unfold uRows at h
  induction σ with
  | nil => simp at h
  | cons a l ih =>
    rw [List.filter_cons] at h
    rw [List.find?_cons]
    by_cases hp : (a.uuid == uid) = true
    · rw [if_pos hp] at h
      obtain ⟨rfl, -⟩ := List.cons_eq_cons.mp h
      simp [hp]
    · rw [if_neg hp] at h
      have hp' : (a.uuid == uid) = false := Bool.eq_false_iff.mpr hp
      rw [hp']
      exact ih h

lemma uuid_of_uRows_singleton (uid : String) (σ : List ProfileRow) (r : ProfileRow)
    (h : uRows uid σ = [r]) : (r.uuid == uid) = true := by
  have hr : r ∈ uRows uid σ := h ▸ List.mem_singleton_self r
  exact (List.mem_filter.mp hr).2

lemma uRows_map_of_uuid (f : ProfileRow → ProfileRow)
    (hf : ∀ r, (f r).uuid = r.uuid) (uid : String) (σ : List ProfileRow) :
    uRows uid (σ.map f) = (uRows uid σ).map f := by
  unfold uRows
  induction σ with
  | nil => rfl
  | cons a l ih =>
    simp only [List.map_cons, List.filter_cons, hf a]
    cases hp : (a.uuid == uid) <;> simp [hp, ih]

lemma uRows_append (uid : String) (σ τ : List ProfileRow) :
    uRows uid (σ ++ τ) = uRows uid σ ++ uRows uid τ := by
  simp [uRows, List.filter_append]

lemma row_eq_of_id_eq (σ : List ProfileRow)
    (hids : (σ.map (fun r => r.id)).Nodup) {a b : ProfileRow}
    (ha : a ∈ σ) (hb : b ∈ σ) (h : a.id = b.id) : a = b :=
  List.inj_on_of_nodup_map hids ha hb h

lemma filter_eq_singleton_of_char {α : Type} (l : List α) (a : α) (q : α → Bool)
    (hn : l.Nodup) (ha : a ∈ l) (hc : ∀ x ∈ l, q x = true ↔ x = a) :
    l.filter q = [a] := by
  induction l with
  | nil => cases ha
  | cons y ys ih =>
    obtain ⟨hyn, hysn⟩ := List.nodup_cons.mp hn
    rw [List.filter_cons]
    rcases List.mem_cons.mp ha with rfl | hmem
    · rw [if_pos ((hc a (List.mem_cons_self a ys)).mpr rfl)]
      have : ys.filter q = [] := by
        rw [List.filter_eq_nil_iff]
        intro x hx hqx
        exact hyn (((hc x (List.mem_cons_of_mem a hx)).mp hqx) ▸ hx)
      rw [this]
    · have hy : ¬ (q y = true) := by
        intro hqy
        exact hyn ((hc y (List.mem_cons_self y ys)).mp hqy ▸ hmem)
      rw [if_neg hy]
      exact ih hysn hmem (fun x hx => hc x (List.mem_cons_of_mem y hx))

/-! ### Branch shape lemmas for `handleUserProfile` -/

lemma creation_shape (u : User) (now fid : Nat) (σ : List ProfileRow)
    (h : uRows u.id σ = []) :
    handleUserProfile u now fid false σ =
      { store := σ ++ [mkNewRow u now fid]
        err := none
        ops := [StoreOp.listQuery, StoreOp.pointLookup u.id, StoreOp.upsertRow u.id] } := by
  have hfind := find?_eq_none_of_uRows_nil u.id σ h
  have hany := any_eq_false_of_uRows_nil u.id σ h
  simp [handleUserProfile, h, hfind, hany]

lemma existing_shape (u : User) (now fid : Nat) (σ : List ProfileRow) (r : ProfileRow)
    (h : uRows u.id σ = [r]) :
    handleUserProfile u now fid false σ =
      { store := σ.map (fun s =>
          if s.uuid == u.id then applyPatch (mkExistingPatch u now (some r)) s else s)
        err := none
        ops := if truthy (deriveUserName u) then
            [StoreOp.listQuery, StoreOp.fetchProfile u.id, StoreOp.updateByUuid u.id]
          else [StoreOp.listQuery, StoreOp.updateByUuid u.id] } := by
  have hfind := find?_of_uRows_singleton u.id σ r h
  simp [handleUserProfile, h, hfind]

lemma dup_shape (u : User) (now fid : Nat) (σ : List ProfileRow)
    (oldest : ProfileRow) (toDelete : List ProfileRow)
    (hlen : 1 < (uRows u.id σ).length)
    (hs : sortRows (uRows u.id σ) = oldest :: toDelete) :
    handleUserProfile u now fid false σ =
      { store := (σ.filter (fun r => toDelete.all (fun d => d.id != r.id))).map
          (fun r => if r.id == oldest.id then { r with last_sign_in_at := now } else r)
        err := none
        ops := StoreOp.listQuery ::
          (toDelete.map (fun d => StoreOp.deleteRow d.id) ++
            [StoreOp.updateByRowId oldest.id]) } := by
  simp [handleUserProfile, hlen, hs]

/-! ### Result-shape helpers for single runs -/

lemma run_nil (u : User) (now fid : Nat) (σ : List ProfileRow)
    (h : uRows u.id σ = []) :
    uRows u.id (handleUserProfile u now fid false σ).store = [mkNewRow u now fid] := by
  rw [creation_shape u now fid σ h, uRows_append, h]
  simp [uRows, mkNewRow]

lemma run_singleton (u : User) (now fid : Nat) (σ : List ProfileRow) (r : ProfileRow)
    (h : uRows u.id σ = [r]) :
    uRows u.id (handleUserProfile u now fid false σ).store =
      [applyPatch (mkExistingPatch u now (some r)) r] := by
  rw [existing_shape u now fid σ r h]
  have hf : ∀ s : ProfileRow,
      ((fun s => if s.uuid == u.id then applyPatch (mkExistingPatch u now (some r)) s else s) s).uuid
        = s.uuid := by
    intro s
    by_cases hc : (s.uuid == u.id) = true
    · simp [hc, applyPatch]
    · simp [hc]
  rw [uRows_map_of_uuid _ hf, h]
  simp only [List.map_cons, List.map_nil]
  rw [if_pos (uuid_of_uRows_singleton u.id σ r h)]

lemma truthy_iff (o : Option String) :
    truthy o = true ↔ ∃ s, o = some s ∧ (s == "") = false := by
  cases o with
  | none => simp [truthy]
  | some s => simp [truthy]

lemma trainer_mem_withTrainer (o : Option (List String)) :
    "trainer" ∈ withTrainer o := by
  cases o <;> simp [withTrainer]

lemma mem_withTrainer_of_mem (o : Option (List String)) (x : String)
    (h : x ∈ rolesList o) : x ∈ withTrainer o := by
  cases o with
  | none => simp [rolesList] at h
  | some rs => exact List.mem_append_left _ h

lemma trainer_mem_of_needTrainer_false (o : Option (List String))
    (h : needTrainer o = false) : "trainer" ∈ rolesList o := by
  cases o with
  | none => simp [needTrainer] at h
  | some rs =>
    simp only [needTrainer, Bool.not_eq_false'] at h
    simpa [rolesList] using List.mem_of_elem_eq_true h

/-- C5 and C6 creation helper: the row written by the first-time branch. -/
lemma creation_result (u : User) (now fid : Nat) (σ : List ProfileRow)
    (h : uRows u.id σ = []) :
    ∃ r, uRows u.id (handleUserProfile u now fid false σ).store = [r]
      ∧ r = mkNewRow u now fid
      ∧ StoreOp.upsertRow u.id ∈ (handleUserProfile u now fid false σ).ops := by
  refine ⟨mkNewRow u now fid, run_nil u now fid σ h, rfl, ?_⟩
  rw [creation_shape u now fid σ h]
  simp

/-- C5: first-time creation — with no row for a fresh subject (and the
double-check point lookup also finding none), one run produces exactly one
row for the subject, carrying the identity's id and email, the best-effort
derived display name, and the default role set, via an upsert keyed on the
subject id. -/
theorem first_time_creation (u : User) (now fid : Nat) (σ : List ProfileRow)
    (h : uRows u.id σ = []) :
    ∃ r, uRows u.id (handleUserProfile u now fid false σ).store = [r]
      ∧ r.uuid = u.id ∧ r.email = u.email ∧ r.name = deriveUserName u
      ∧ r.roles = some ["trainer"]
      ∧ StoreOp.upsertRow u.id ∈ (handleUserProfile u now fid false σ).ops := by
  obtain ⟨r, hr, rfl, hop⟩ := creation_result u now fid σ h
  exact ⟨mkNewRow u now fid, hr, rfl, rfl, rfl, rfl, hop⟩

theorem first_time_creation_witness :
    (uRows uJane.id ([] : List ProfileRow) = []) ∧
    (deriveUserName uJane = some "Jane Doe" ∧ uJane.email = some "jane@x.com") ∧
    (∃ r, uRows uJane.id (handleUserProfile uJane 5 1 false []).store = [r]
      ∧ r.uuid = uJane.id ∧ r.email = uJane.email ∧ r.name = deriveUserName uJane
      ∧ r.roles = some ["trainer"]
      ∧ StoreOp.upsertRow uJane.id ∈ (handleUserProfile uJane 5 1 false []).ops) :=
  ⟨by decide, ⟨by decide, by decide⟩, first_time_creation uJane 5 1 [] (by decide)⟩

/-- C6: fallback naming — when no metadata name field is truthy and the
email is `bob@x.com`, the created profile's display name is the email
local part `bob`. -/
theorem fallback_name_email_local_part (u : User) (now fid : Nat) (σ : List ProfileRow)
    (h : uRows u.id σ = [])
    (h1 : truthy u.user_metadata.full_name = false)
    (h2 : truthy u.user_metadata.name = false)
    (h3 : truthy u.user_metadata.displayName = false)
    (h4 : truthy u.user_metadata.display_name = false)
    (h5 : u.email = some "bob@x.com") :
    ∃ r, uRows u.id (handleUserProfile u now fid false σ).store = [r]
      ∧ r.name = some "bob" := by
  have hstep : deriveUserName u
      = (match u.email with
          | some e => if e == "" then none else some (localPart e)
          | none => none) := by
    simp [deriveUserName, jsOr, h1, h2, h3, h4]
  have hname : deriveUserName u = some "bob" := by
    rw [hstep, h5]
    decide
  obtain ⟨r, hr, rfl, -⟩ := creation_result u now fid σ h
  exact ⟨mkNewRow u now fid, hr, hname⟩

theorem fallback_name_email_local_part_witness :
    (uRows uBob.id ([] : List ProfileRow) = []
      ∧ truthy uBob.user_metadata.full_name = false
      ∧ truthy uBob.user_metadata.name = false
      ∧ truthy uBob.user_metadata.displayName = false
      ∧ truthy uBob.user_metadata.display_name = false
      ∧ uBob.email = some "bob@x.com") ∧
    (∃ r, uRows uBob.id (handleUserProfile uBob 5 1 false []).store = [r]
      ∧ r.name = some "bob") :=
  ⟨⟨by decide, by decide, by decide, by decide, by decide, by decide⟩,
    fallback_name_email_local_part uBob 5 1 [] (by decide) (by decide) (by decide)
      (by decide) (by decide) (by decide)⟩

/-- C7 (amended): the routine performs no subject-id validation and has no
`MissingIdentity` outcome — with an empty subject id it takes the normal
first-time path, writing a row keyed by the empty id and signalling no
error to the caller. -/
theorem empty_subject_id_normal_path (u : User) (now fid : Nat) (σ : List ProfileRow)
    (hid : u.id = "") (h : uRows u.id σ = []) :
    (handleUserProfile u now fid false σ).store = σ ++ [mkNewRow u now fid]
    ∧ (handleUserProfile u now fid false σ).err = none
    ∧ (mkNewRow u now fid).uuid = ""
    ∧ (handleUserProfile u now fid false σ).ops.any StoreOp.isWrite = true := by
  rw [creation_shape u now fid σ h]
  refine ⟨rfl, rfl, hid ▸ rfl, by simp [StoreOp.isWrite]⟩

theorem empty_subject_id_normal_path_witness :
    (uEmptyId.id = "" ∧ uRows uEmptyId.id ([] : List ProfileRow) = []) ∧
    ((handleUserProfile uEmptyId 3 7 false []).store = [] ++ [mkNewRow uEmptyId 3 7]
      ∧ (handleUserProfile uEmptyId 3 7 false []).err = none
      ∧ (mkNewRow uEmptyId 3 7).uuid = ""
      ∧ (handleUserProfile uEmptyId 3 7 false []).ops.any StoreOp.isWrite = true) :=
  ⟨⟨by decide, by decide⟩,
    empty_subject_id_normal_path uEmptyId 3 7 [] (by decide) (by decide)⟩

/-- C7 counterexample: with an empty subject id the run does not fail with
`MissingIdentity` and it does write — the store changes and a write
operation is attempted, contradicting the claimed rejection. -/
theorem missing_identity_not_enforced :
    (handleUserProfile uEmptyId 3 7 false []).err ≠ some ReconcileErr.missingIdentity
    ∧ (handleUserProfile uEmptyId 3 7 false []).store ≠ ([] : List ProfileRow)
    ∧ (handleUserProfile uEmptyId 3 7 false []).ops.any StoreOp.isWrite = true := by
  refine ⟨by decide, by decide, by decide⟩

/-- C8 (amended): when the initial list query fails the routine attempts
no write and no second query (no retry), leaves the store untouched —
but the failure is logged and swallowed: no error (in particular no
`StoreUnavailable`) reaches the caller. -/
theorem list_failure_swallowed_no_writes (u : User) (now fid : Nat) (σ : List ProfileRow) :
    (handleUserProfile u now fid true σ).store = σ
    ∧ (handleUserProfile u now fid true σ).err = none
    ∧ (handleUserProfile u now fid true σ).ops.filter StoreOp.isWrite = []
    ∧ (handleUserProfile u now fid true σ).ops = [StoreOp.listQuery] := by
  exact ⟨rfl, rfl, rfl, rfl⟩

/-- C8 counterexample: a failing initial query is not reported to the
caller as `StoreUnavailable` — the run's caller-visible error channel is
empty, indistinguishable from success. -/
theorem store_failure_not_reported :
    (handleUserProfile uJane 4 8 true [rowAdmin]).err = none
    ∧ (handleUserProfile uJane 4 8 true [rowAdmin]).err ≠ some ReconcileErr.storeUnavailable := by
  refine ⟨by decide, by decide⟩

/-- C10: in the existing-profile branch, when no display name is derivable
from the identity, the update patch contains only the authentication
timestamp: the subject's row keeps its name and roles (so the default role
is not added even when absent), and no profile fetch is performed. -/
theorem existing_branch_lsi_only (u : User) (now fid : Nat) (σ : List ProfileRow)
    (r : ProfileRow) (h : uRows u.id σ = [r])
    (hn : truthy (deriveUserName u) = false) :
    uRows u.id (handleUserProfile u now fid false σ).store = [{ r with last_sign_in_at := now }]
    ∧ (handleUserProfile u now fid false σ).ops
        = [StoreOp.listQuery, StoreOp.updateByUuid u.id] := by
  constructor
  · rw [run_singleton u now fid σ r h]
    simp [mkExistingPatch, hn, applyPatch]
  · rw [existing_shape u now fid σ r h]
    simp [hn]

theorem existing_branch_lsi_only_witness :
    (uRows uNoName.id [rowAdmin] = [rowAdmin]
      ∧ truthy (deriveUserName uNoName) = false) ∧
    (uRows uNoName.id (handleUserProfile uNoName 9 99 false [rowAdmin]).store
        = [{ rowAdmin with last_sign_in_at := 9 }]
      ∧ (handleUserProfile uNoName 9 99 false [rowAdmin]).ops
        = [StoreOp.listQuery, StoreOp.updateByUuid uNoName.id]) :=
  ⟨⟨by decide, by decide⟩,
    existing_branch_lsi_only uNoName 9 99 [rowAdmin] rowAdmin (by decide) (by decide)⟩

/-! ### Permutation and order facts about the duplicate-collapse sort -/

lemma insertRow_perm (x : ProfileRow) (l : List ProfileRow) :
    (insertRow x l).Perm (x :: l) := by
  induction l with
  | nil => exact List.Perm.refl _
  | cons y ys ih =>
    simp only [insertRow]
    by_cases hp : dupLe x y = true
    · rw [if_pos hp]
    · rw [if_neg hp]
      exact (ih.cons y).trans (List.Perm.swap x y ys)

lemma sortRows_perm (l : List ProfileRow) : (sortRows l).Perm l := by
  induction l with
  | nil => exact List.Perm.refl _
  | cons x xs ih =>
    exact (insertRow_perm x (sortRows xs)).trans (ih.cons x)

/-- C3: no-clobber of the display name — any row with a truthy name that
survives a run keeps that name, whatever the identity's metadata suggests
(row identifiers are unique and the store's fresh id is genuinely fresh). -/
theorem display_name_no_clobber (u : User) (now fid : Nat) (σ : List ProfileRow)
    (hids : (σ.map (fun r => r.id)).Nodup) (hfresh : fid ∉ σ.map (fun r => r.id))
    (r : ProfileRow) (hr : r ∈ σ) (hname : truthy r.name = true)
    (r' : ProfileRow) (hr' : r' ∈ (handleUserProfile u now fid false σ).store)
    (hid : r'.id = r.id) : r'.name = r.name := by
  cases hu : uRows u.id σ with
  | nil =>
    rw [creation_shape u now fid σ hu] at hr'
    rcases List.mem_append.mp hr' with hmem | hmem
    · exact congrArg ProfileRow.name (row_eq_of_id_eq σ hids hmem hr hid)
    · exfalso
      have hnew : r' = mkNewRow u now fid := List.mem_singleton.mp hmem
      have h1 : fid = r.id := by rw [← hid, hnew]; rfl
      exact hfresh (h1 ▸ List.mem_map_of_mem (fun r => r.id) hr)
  | cons r0 rest =>
    cases rest with
    | nil =>
      rw [existing_shape u now fid σ r0 hu] at hr'
      obtain ⟨s, hs, hfs⟩ := List.mem_map.mp hr'
      have hsid : r'.id = s.id := by
        rw [← hfs]
        by_cases hc : (s.uuid == u.id) = true
        · simp [hc, applyPatch]
        · simp [hc]
      have hsr : s = r := row_eq_of_id_eq σ hids hs hr (by rw [← hsid]; exact hid)
      subst hsr
      by_cases hc : (s.uuid == u.id) = true
      · have hr0 : s = r0 := by
          have hmem : s ∈ uRows u.id σ := List.mem_filter.mpr ⟨hr, hc⟩
          rw [hu] at hmem
          exact List.mem_singleton.mp hmem
        have hpn : (mkExistingPatch u now (some r0)).name = none := by
          by_cases ht : truthy (deriveUserName u) = true
          · simp [mkExistingPatch, ht, ← hr0, hname]
          · simp [mkExistingPatch, ht]
        rw [← hfs, if_pos hc]
        simp [applyPatch, hpn]
      · rw [← hfs, if_neg hc]
    | cons r1 rest2 =>
      have hlen : 1 < (uRows u.id σ).length := by
        rw [hu]; simp [List.length_cons]
      obtain ⟨oldest, toDelete, hsort⟩ :
          ∃ o t, sortRows (uRows u.id σ) = o :: t := by
        cases hs : sortRows (uRows u.id σ) with
        | nil =>
          exfalso
          have hl := (sortRows_perm (uRows u.id σ)).length_eq
          rw [hs, hu] at hl
          simp at hl
        | cons o t => exact ⟨o, t, rfl⟩
      rw [dup_shape u now fid σ oldest toDelete hlen hsort] at hr'
      obtain ⟨s, hs, hfs⟩ := List.mem_map.mp hr'
      have hsσ : s ∈ σ := (List.mem_filter.mp hs).1
      have hsid : r'.id = s.id := by
        rw [← hfs]
        by_cases hc : (s.id == oldest.id) = true <;> simp [hc]
      have hsr : s = r := row_eq_of_id_eq σ hids hsσ hr (by rw [← hsid]; exact hid)
      subst hsr
      rw [← hfs]
      by_cases hc : (s.id == oldest.id) = true <;> simp [hc]

theorem display_name_no_clobber_witness :
    (([rowAdmin].map (fun r => r.id)).Nodup
      ∧ 99 ∉ [rowAdmin].map (fun r => r.id)
      ∧ rowAdmin ∈ [rowAdmin]
      ∧ truthy rowAdmin.name = true
      ∧ ({ rowAdmin with last_sign_in_at := 9, roles := some ["admin", "trainer"] } : ProfileRow)
          ∈ (handleUserProfile uMail 9 99 false [rowAdmin]).store
      ∧ ({ rowAdmin with last_sign_in_at := 9, roles := some ["admin", "trainer"] } : ProfileRow).id
          = rowAdmin.id) ∧
    ({ rowAdmin with last_sign_in_at := 9, roles := some ["admin", "trainer"] } : ProfileRow).name
      = rowAdmin.name :=
  ⟨⟨by decide, by decide, by decide, by decide, by decide, by decide⟩,
    display_name_no_clobber uMail 9 99 [rowAdmin] (by decide) (by decide) rowAdmin
      (by decide) (by decide) _ (by decide) (by decide)⟩

/-- C4 (amended): roles are never removed by a run — every surviving row
keeps all roles it had — and the default role is added by union in the
existing-profile branch exactly when a display name is derivable from the
identity; with no derivable name (and in the duplicate-collapse run) the
role set is left untouched even if the default role is absent. -/
theorem roles_never_removed_default_added_when_derivable
    (u : User) (now fid : Nat) (σ : List ProfileRow)
    (hids : (σ.map (fun r => r.id)).Nodup) (hfresh : fid ∉ σ.map (fun r => r.id)) :
    (∀ r ∈ σ, ∀ r' ∈ (handleUserProfile u now fid false σ).store,
        r'.id = r.id → ∀ x ∈ rolesList r.roles, x ∈ rolesList r'.roles)
    ∧ (∀ r, uRows u.id σ = [r] → truthy (deriveUserName u) = true →
        ∀ r' ∈ (handleUserProfile u now fid false σ).store, r'.uuid = u.id →
          "trainer" ∈ rolesList r'.roles) := by
  constructor
  · intro r hr r' hr' hid x hx
    cases hu : uRows u.id σ with
    | nil =>
      rw [creation_shape u now fid σ hu] at hr'
      rcases List.mem_append.mp hr' with hmem | hmem
      · rw [row_eq_of_id_eq σ hids hmem hr hid]
        exact hx
      · exfalso
        have hnew : r' = mkNewRow u now fid := List.mem_singleton.mp hmem
        have h1 : fid = r.id := by rw [← hid, hnew]; rfl
        exact hfresh (h1 ▸ List.mem_map_of_mem (fun r => r.id) hr)
    | cons r0 rest =>
      cases rest with
      | nil =>
        rw [existing_shape u now fid σ r0 hu] at hr'
        obtain ⟨s, hs, hfs⟩ := List.mem_map.mp hr'
        have hsid : r'.id = s.id := by
          rw [← hfs]
          by_cases hc : (s.uuid == u.id) = true
          · simp [hc, applyPatch]
          · simp [hc]
        have hsr : s = r := row_eq_of_id_eq σ hids hs hr (by rw [← hsid]; exact hid)
        subst hsr
        by_cases hc : (s.uuid == u.id) = true
        · have hr0 : s = r0 := by
            have hmem : s ∈ uRows u.id σ := List.mem_filter.mpr ⟨hr, hc⟩
            rw [hu] at hmem
            exact List.mem_singleton.mp hmem
          rw [← hfs, if_pos hc]
          subst hr0
          by_cases ht : truthy (deriveUserName u) = true
          · by_cases hnt : needTrainer s.roles = true
            · have hro : (applyPatch (mkExistingPatch u now (some s)) s).roles
                  = some (withTrainer s.roles) := by
                simp [mkExistingPatch, ht, hnt, applyPatch]
              rw [hro]
              exact mem_withTrainer_of_mem s.roles x hx
            · have hnt' : needTrainer s.roles = false := Bool.eq_false_iff.mpr hnt
              have hro : (applyPatch (mkExistingPatch u now (some s)) s).roles
                  = s.roles := by
                simp [mkExistingPatch, ht, hnt', applyPatch]
              rw [hro]
              exact hx
          · have hro : (applyPatch (mkExistingPatch u now (some s)) s).roles
                = s.roles := by
              simp [mkExistingPatch, ht, applyPatch]
            rw [hro]
            exact hx
        · rw [← hfs, if_neg hc]
          exact hx
      | cons r1 rest2 =>
        have hlen : 1 < (uRows u.id σ).length := by
          rw [hu]; simp [List.length_cons]
        obtain ⟨oldest, toDelete, hsort⟩ :
            ∃ o t, sortRows (uRows u.id σ) = o :: t := by
          cases hs : sortRows (uRows u.id σ) with
          | nil =>
            exfalso
            have hl := (sortRows_perm (uRows u.id σ)).length_eq
            rw [hs, hu] at hl
            simp at hl
          | cons o t => exact ⟨o, t, rfl⟩
        rw [dup_shape u now fid σ oldest toDelete hlen hsort] at hr'
        obtain ⟨s, hs, hfs⟩ := List.mem_map.mp hr'
        have hsσ : s ∈ σ := (List.mem_filter.mp hs).1
        have hsid : r'.id = s.id := by
          rw [← hfs]
          by_cases hc : (s.id == oldest.id) = true <;> simp [hc]
        have hsr : s = r := row_eq_of_id_eq σ hids hsσ hr (by rw [← hsid]; exact hid)
        subst hsr
        rw [← hfs]
        by_cases hc : (s.id == oldest.id) = true <;> simp [hc] <;> exact hx
  · intro r hsing ht r' hr' huu
    rw [existing_shape u now fid σ r hsing] at hr'
    obtain ⟨s, hs, hfs⟩ := List.mem_map.mp hr'
    have hsuuid : s.uuid = u.id := by
      by_cases hc : (s.uuid == u.id) = true
      · exact beq_iff_eq.mp hc
      · rw [← hfs, if_neg hc] at huu
        exact huu
    have hc : (s.uuid == u.id) = true := beq_iff_eq.mpr hsuuid
    have hsmem : s ∈ uRows u.id σ := List.mem_filter.mpr ⟨hs, hc⟩
    have hsr : s = r := by
      rw [hsing] at hsmem
      exact List.mem_singleton.mp hsmem
    subst hsr
    rw [← hfs, if_pos hc]
    by_cases hnt : needTrainer s.roles = true
    · have hro : (applyPatch (mkExistingPatch u now (some s)) s).roles
          = some (withTrainer s.roles) := by
        simp [mkExistingPatch, ht, hnt, applyPatch]
      rw [hro]
      exact trainer_mem_withTrainer s.roles
    · have hnt' : needTrainer s.roles = false := Bool.eq_false_iff.mpr hnt
      have hro : (applyPatch (mkExistingPatch u now (some s)) s).roles = s.roles := by
        simp [mkExistingPatch, ht, hnt', applyPatch]
      rw [hro]
      exact trainer_mem_of_needTrainer_false s.roles hnt'

theorem roles_never_removed_witness :
    (([rowAdmin].map (fun r => r.id)).Nodup ∧ 99 ∉ [rowAdmin].map (fun r => r.id)) ∧
    ((∀ r ∈ [rowAdmin], ∀ r' ∈ (handleUserProfile uMail 9 99 false [rowAdmin]).store,
        r'.id = r.id → ∀ x ∈ rolesList r.roles, x ∈ rolesList r'.roles)
      ∧ (∀ r, uRows uMail.id [rowAdmin] = [r] → truthy (deriveUserName uMail) = true →
          ∀ r' ∈ (handleUserProfile uMail 9 99 false [rowAdmin]).store, r'.uuid = uMail.id →
            "trainer" ∈ rolesList r'.roles)) :=
  ⟨⟨by decide, by decide⟩,
    roles_never_removed_default_added_when_derivable uMail 9 99 [rowAdmin]
      (by decide) (by decide)⟩

/-- C4 counterexample: for an identity with no derivable name, a profile
with roles `{admin}` is reconciled without the default role being added —
the run ends with roles still `["admin"]`, not `["admin", "trainer"]`. -/
theorem trainer_not_added_counterexample :
    (handleUserProfile uNoName 9 99 false [rowAdmin]).store
        = [{ rowAdmin with last_sign_in_at := 9 }]
    ∧ rolesList ({ rowAdmin with last_sign_in_at := 9 } : ProfileRow).roles = ["admin"]
    ∧ "trainer" ∉ (["admin"] : List String) := by
  refine ⟨by decide, by decide, by decide⟩

/-! ### Idempotence machinery -/

/-- A row is saturated for an identity when, whenever a display name is
derivable, the row already carries a truthy name and the default role;
such rows receive timestamp-only patches on later runs. -/
def StableFor (u : User) (r : ProfileRow) : Prop :=
  truthy (deriveUserName u) = true →
    (truthy r.name = true ∧ "trainer" ∈ rolesList r.roles)

lemma mkExistingPatch_of_stable (u : User) (now : Nat) (r : ProfileRow)
    (hs : StableFor u r) :
    mkExistingPatch u now (some r) =
      { last_sign_in_at := now, name := none, roles := none } := by
  by_cases ht : truthy (deriveUserName u) = true
  · obtain ⟨hn, hro⟩ := hs ht
    have hnt : needTrainer r.roles = false := by
      cases hrr : r.roles with
      | none =>
        rw [hrr] at hro
        simp [rolesList] at hro
      | some rs =>
        rw [hrr] at hro
        simp only [rolesList] at hro
        simp only [needTrainer, hrr, Bool.not_eq_false']
        simpa using hro
    simp [mkExistingPatch, ht, hn, hnt]
  · simp [mkExistingPatch, ht]

lemma applyPatch_trivial (now : Nat) (r : ProfileRow) :
    applyPatch { last_sign_in_at := now, name := none, roles := none } r =
      { r with last_sign_in_at := now } := rfl

lemma stable_mkNewRow (u : User) (now fid : Nat) :
    StableFor u (mkNewRow u now fid) := by
  intro ht
  exact ⟨ht, by simp [mkNewRow, rolesList]⟩

lemma stable_applyExisting (u : User) (now : Nat) (r : ProfileRow) :
    StableFor u (applyPatch (mkExistingPatch u now (some r)) r) := by
  intro ht
  constructor
  · by_cases hrn : truthy r.name = true
    · have hpn : (mkExistingPatch u now (some r)).name = none := by
        simp [mkExistingPatch, ht, hrn]
      simp [applyPatch, hpn, hrn]
    · have hrn' : truthy r.name = false := Bool.eq_false_iff.mpr hrn
      have hpn : (mkExistingPatch u now (some r)).name = deriveUserName u := by
        simp [mkExistingPatch, ht, hrn']
      obtain ⟨s, hds, hse⟩ := (truthy_iff (deriveUserName u)).mp ht
      simp [applyPatch, hpn, hds, truthy, hse]
  · by_cases hnt : needTrainer r.roles = true
    · have hro : (applyPatch (mkExistingPatch u now (some r)) r).roles
          = some (withTrainer r.roles) := by
        simp [mkExistingPatch, ht, hnt, applyPatch]
      rw [hro]
      exact trainer_mem_withTrainer r.roles
    · have hnt' : needTrainer r.roles = false := Bool.eq_false_iff.mpr hnt
      have hro : (applyPatch (mkExistingPatch u now (some r)) r).roles = r.roles := by
        simp [mkExistingPatch, ht, hnt', applyPatch]
      rw [hro]
      exact trainer_mem_of_needTrainer_false r.roles hnt'

lemma stable_lsi (u : User) (now : Nat) (r : ProfileRow) (hs : StableFor u r) :
    StableFor u { r with last_sign_in_at := now } := by
  intro ht
  exact hs ht

/-- After the first run from a state with at most one row for the subject,
the subject always has exactly one, saturated row, and its
name/roles/providers projection never changes again. -/
lemma iter_invariant (u : User) (nows fids : Nat → Nat) (σ : List ProfileRow)
    (h : (uRows u.id σ).length ≤ 1) :
    ∀ k, ∃ r, uRows u.id (iterReconcile u nows fids σ (k + 1)) = [r]
      ∧ StableFor u r
      ∧ (uRows u.id (iterReconcile u nows fids σ (k + 1))).map projFields
        = (uRows u.id (iterReconcile u nows fids σ 1)).map projFields := by
  intro k
  induction k with
  | zero =>
    cases hu : uRows u.id σ with
    | nil =>
      refine ⟨mkNewRow u (nows 0) (fids 0), ?_, stable_mkNewRow u (nows 0) (fids 0), rfl⟩
      show uRows u.id (handleUserProfile u (nows 0) (fids 0) false σ).store = _
      exact run_nil u (nows 0) (fids 0) σ hu
    | cons r0 rest =>
      cases rest with
      | nil =>
        refine ⟨applyPatch (mkExistingPatch u (nows 0) (some r0)) r0, ?_,
          stable_applyExisting u (nows 0) r0, rfl⟩
        show uRows u.id (handleUserProfile u (nows 0) (fids 0) false σ).store = _
        exact run_singleton u (nows 0) (fids 0) σ r0 hu
      | cons r1 rest2 =>
        exfalso
        rw [hu] at h
        simp [List.length_cons] at h
  | succ k ih =>
    obtain ⟨r, hr, hst, hproj⟩ := ih
    have hrun : uRows u.id (iterReconcile u nows fids σ (k + 2)) =
        [applyPatch (mkExistingPatch u (nows (k + 1)) (some r)) r] := by
      show uRows u.id (handleUserProfile u (nows (k + 1)) (fids (k + 1)) false
        (iterReconcile u nows fids σ (k + 1))).store = _
      exact run_singleton u (nows (k + 1)) (fids (k + 1)) _ r hr
    rw [mkExistingPatch_of_stable u (nows (k + 1)) r hst, applyPatch_trivial] at hrun
    refine ⟨{ r with last_sign_in_at := nows (k + 1) }, hrun,
      stable_lsi u (nows (k + 1)) r hst, ?_⟩
    rw [hrun, ← hproj, hr]
    rfl

/-- C1 (amended): for an identity whose subject has at most one profile
row to begin with (no pre-existing duplicates) and whose row is not edited
between runs, running the reconciler N ≥ 1 times consecutively yields the
same display name, roles, providers and subject row count as running it
once; only the authentication timestamp differs between runs.  (From a
duplicated state this fails: see the counterexample.) -/
theorem reconcile_idempotent_of_no_duplicates (u : User) (nows fids : Nat → Nat)
    (σ : List ProfileRow) (h : (uRows u.id σ).length ≤ 1)
    (n : Nat) (hn : 1 ≤ n) :
    (uRows u.id (iterReconcile u nows fids σ n)).map projFields
      = (uRows u.id (iterReconcile u nows fids σ 1)).map projFields := by
  obtain ⟨k, rfl⟩ : ∃ k, n = k + 1 := ⟨n - 1, by omega⟩
  obtain ⟨r, -, -, hproj⟩ := iter_invariant u nows fids σ h k
  exact hproj

theorem reconcile_idempotent_witness :
    ((uRows uJane.id ([] : List ProfileRow)).length ≤ 1 ∧ 1 ≤ 3) ∧
    (uRows uJane.id (iterReconcile uJane (fun k => 10 + k) (fun k => 100 + k) [] 3)).map projFields
      = (uRows uJane.id (iterReconcile uJane (fun k => 10 + k) (fun k => 100 + k) [] 1)).map projFields :=
  ⟨⟨by decide, by decide⟩,
    reconcile_idempotent_of_no_duplicates uJane (fun k => 10 + k) (fun k => 100 + k) []
      (by decide) 3 (by decide)⟩

/-- C1 counterexample: from a state with two duplicate rows, the second
run changes the surviving row's name and roles relative to the first run
(the collapse run refreshes only the timestamp, the next run merges), so
N runs are not equivalent to one run. -/
theorem reconcile_not_idempotent_from_duplicates :
    (uRows "u1" (iterReconcile uMail (fun k => 10 + k) (fun k => 100 + k)
        [rowD 1 10, rowD 2 20] 2)).map projFields
      ≠ (uRows "u1" (iterReconcile uMail (fun k => 10 + k) (fun k => 100 + k)
        [rowD 1 10, rowD 2 20] 1)).map projFields := by
  decide

/-! ### Order facts for the duplicate-collapse comparator -/

lemma dupLe_total (a b : ProfileRow) (h : dupLe a b = false) : dupLe b a = true := by
  cases ha : a.created_at <;> cases hb : b.created_at <;>
    simp [dupLe, ha, hb] at h ⊢ <;> omega

lemma dupLe_trans (a b c : ProfileRow)
    (ha : a.created_at.isSome = true) (hb : b.created_at.isSome = true)
    (hc : c.created_at.isSome = true)
    (h1 : dupLe a b = true) (h2 : dupLe b c = true) : dupLe a c = true := by
  obtain ⟨ca, hca⟩ := Option.isSome_iff_exists.mp ha
  obtain ⟨cb, hcb⟩ := Option.isSome_iff_exists.mp hb
  obtain ⟨cc, hcc⟩ := Option.isSome_iff_exists.mp hc
  simp [dupLe, hca, hcb, hcc] at h1 h2 ⊢
  omega

lemma pairwise_insertRow (x : ProfileRow) (l : List ProfileRow)
    (hx : x.created_at.isSome = true) (hl : ∀ y ∈ l, y.created_at.isSome = true)
    (hp : l.Pairwise (fun a b => dupLe a b = true)) :
    (insertRow x l).Pairwise (fun a b => dupLe a b = true) := by
  induction l with
  | nil => simp [insertRow]
  | cons y ys ih =>
    obtain ⟨hy, hys⟩ := List.pairwise_cons.mp hp
    simp only [insertRow]
    by_cases hle : dupLe x y = true
    · rw [if_pos hle]
      refine List.Pairwise.cons ?_ hp
      intro z hz
      rcases List.mem_cons.mp hz with rfl | hzys
      · exact hle
      · exact dupLe_trans x y z hx (hl y (List.mem_cons_self y ys))
          (hl z (List.mem_cons_of_mem y hzys)) hle (hy z hzys)
    · rw [if_neg hle]
      have hyx : dupLe y x = true := dupLe_total x y (Bool.eq_false_iff.mpr hle)
      refine List.Pairwise.cons ?_
        (ih (fun z hz => hl z (List.mem_cons_of_mem y hz)) hys)
      intro z hz
      have hz' : z ∈ x :: ys := ((insertRow_perm x ys).mem_iff).mp hz
      rcases List.mem_cons.mp hz' with rfl | hzys
      · exact hyx
      · exact hy z hzys

lemma pairwise_sortRows (l : List ProfileRow)
    (hl : ∀ y ∈ l, y.created_at.isSome = true) :
    (sortRows l).Pairwise (fun a b => dupLe a b = true) := by
  induction l with
  | nil => simp [sortRows]
  | cons x xs ih =>
    exact pairwise_insertRow x (sortRows xs) (hl x (List.mem_cons_self x xs))
      (fun y hy => hl y (List.mem_cons_of_mem x ((sortRows_perm xs).mem_iff.mp hy)))
      (ih (fun y hy => hl y (List.mem_cons_of_mem x hy)))

/-- C2 (amended): with more than one row for the subject (all rows
carrying comparable creation markers, row identifiers unique), one run
keeps exactly the earliest-created row, deletes all others, and updates
the survivor with only the authentication timestamp — not with the
display-name fill-in or the role merge of the existing-profile branch. -/
theorem duplicate_collapse_earliest_lsi_only (u : User) (now fid : Nat)
    (σ : List ProfileRow)
    (hids : (σ.map (fun r => r.id)).Nodup)
    (hlen : 1 < (uRows u.id σ).length)
    (hcr : ∀ x ∈ uRows u.id σ, x.created_at.isSome = true) :
    ∃ m, m ∈ uRows u.id σ
      ∧ (∀ x ∈ uRows u.id σ, m.created_at.getD 0 ≤ x.created_at.getD 0)
      ∧ uRows u.id (handleUserProfile u now fid false σ).store
          = [{ m with last_sign_in_at := now }] := by
  obtain ⟨oldest, toDelete, hsort⟩ :
      ∃ o t, sortRows (uRows u.id σ) = o :: t := by
    cases hs : sortRows (uRows u.id σ) with
    | nil =>
      exfalso
      have hlq := (sortRows_perm (uRows u.id σ)).length_eq
      rw [hs] at hlq
      simp at hlq
      omega
    | cons o t => exact ⟨o, t, rfl⟩
  have hperm : (oldest :: toDelete).Perm (uRows u.id σ) :=
    hsort ▸ sortRows_perm (uRows u.id σ)
  have hrows_sub : (uRows u.id σ).Sublist σ := List.filter_sublist σ
  have hrows_idnodup : ((uRows u.id σ).map (fun r => r.id)).Nodup :=
    List.Nodup.sublist (List.Sublist.map (fun r => r.id) hrows_sub) hids
  have hsort_idnodup : ((oldest :: toDelete).map (fun r => r.id)).Nodup :=
    List.Perm.nodup (List.Perm.symm (hperm.map (fun r => r.id))) hrows_idnodup
  have ho_notin : oldest.id ∉ toDelete.map (fun r => r.id) := by
    rw [List.map_cons] at hsort_idnodup
    exact (List.nodup_cons.mp hsort_idnodup).1
  have hq_old : (fun r => toDelete.all (fun d => d.id != r.id)) oldest = true := by
    refine List.all_eq_true.mpr ?_
    intro d hd
    refine bne_iff_ne.mpr ?_
    intro heq
    exact ho_notin (heq ▸ List.mem_map_of_mem (fun r => r.id) hd)
  have hq_del : ∀ d ∈ toDelete,
      (fun r => toDelete.all (fun d => d.id != r.id)) d = false := by
    intro d hd
    refine Bool.eq_false_iff.mpr ?_
    intro hall
    have hself := List.all_eq_true.mp hall d hd
    simp at hself
  have hmem_cases : ∀ x ∈ uRows u.id σ, x = oldest ∨ x ∈ toDelete := by
    intro x hx
    exact List.mem_cons.mp (hperm.mem_iff.mpr hx)
  have hchar : ∀ x ∈ uRows u.id σ,
      (fun r => toDelete.all (fun d => d.id != r.id)) x = true ↔ x = oldest := by
    intro x hx
    constructor
    · intro hqx
      rcases hmem_cases x hx with h | h
      · exact h
      · rw [hq_del x h] at hqx
        cases hqx
    · rintro rfl
      exact hq_old
  have hrows_nodup : (uRows u.id σ).Nodup := List.Nodup.of_map _ hrows_idnodup
  have ho_mem : oldest ∈ uRows u.id σ := hperm.mem_iff.mp (List.mem_cons_self _ _)
  have hfilter : (uRows u.id σ).filter (fun r => toDelete.all (fun d => d.id != r.id))
      = [oldest] :=
    filter_eq_singleton_of_char _ _ _ hrows_nodup ho_mem hchar
  have hresult : uRows u.id (handleUserProfile u now fid false σ).store
      = [{ oldest with last_sign_in_at := now }] := by
    rw [dup_shape u now fid σ oldest toDelete hlen hsort]
    have hf : ∀ r : ProfileRow,
        ((fun r => if r.id == oldest.id then { r with last_sign_in_at := now } else r) r).uuid
          = r.uuid := by
      intro r
      by_cases hc : (r.id == oldest.id) = true <;> simp [hc]
    rw [uRows_map_of_uuid _ hf]
    have hcomm : uRows u.id (σ.filter (fun r => toDelete.all (fun d => d.id != r.id)))
        = (uRows u.id σ).filter (fun r => toDelete.all (fun d => d.id != r.id)) := by
      unfold uRows
      exact List.filter_comm _ _ σ
    rw [hcomm, hfilter]
    simp only [List.map_cons, List.map_nil]
    rw [if_pos (beq_self_eq_true oldest.id)]
  have hpw := pairwise_sortRows (uRows u.id σ) hcr
  rw [hsort] at hpw
  obtain ⟨hfirst, -⟩ := List.pairwise_cons.mp hpw
  refine ⟨oldest, ho_mem, ?_, hresult⟩
  intro x hx
  rcases hmem_cases x hx with rfl | hxdel
  · exact Nat.le_refl _
  · have hle := hfirst x hxdel
    obtain ⟨co, hco⟩ := Option.isSome_iff_exists.mp (hcr oldest ho_mem)
    obtain ⟨cx, hcx⟩ := Option.isSome_iff_exists.mp (hcr x hx)
    simp [dupLe, hco, hcx] at hle
    simpa [hco, hcx] using hle

theorem duplicate_collapse_witness :
    ((([rowD 3 30, rowD 1 10, rowD 2 20].map (fun r => r.id)).Nodup)
      ∧ 1 < (uRows uMail.id [rowD 3 30, rowD 1 10, rowD 2 20]).length
      ∧ (∀ x ∈ uRows uMail.id [rowD 3 30, rowD 1 10, rowD 2 20],
          x.created_at.isSome = true)) ∧
    (∃ m, m ∈ uRows uMail.id [rowD 3 30, rowD 1 10, rowD 2 20]
      ∧ (∀ x ∈ uRows uMail.id [rowD 3 30, rowD 1 10, rowD 2 20],
          m.created_at.getD 0 ≤ x.created_at.getD 0)
      ∧ uRows uMail.id
          (handleUserProfile uMail 100 50 false [rowD 3 30, rowD 1 10, rowD 2 20]).store
          = [{ m with last_sign_in_at := 100 }]) :=
  ⟨⟨by decide, by decide, by decide⟩,
    duplicate_collapse_earliest_lsi_only uMail 100 50 [rowD 3 30, rowD 1 10, rowD 2 20]
      (by decide) (by decide) (by decide)⟩

/-- C2 counterexample: with three duplicate rows created at 10 < 20 < 30,
the collapse keeps the earliest row but updates it with only the
timestamp: its name and roles stay empty even though a display name is
derivable — while the existing-profile branch applied to the same
survivor would fill the name and add the default role.  So the claim that
the survivor is updated "exactly as the existing-profile branch would"
fails. -/
theorem duplicate_collapse_no_merge_counterexample :
    (handleUserProfile uMail 100 50 false [rowD 3 30, rowD 1 10, rowD 2 20]).store
        = [{ rowD 1 10 with last_sign_in_at := 100 }]
    ∧ ({ rowD 1 10 with last_sign_in_at := 100 } : ProfileRow).name = none
    ∧ ({ rowD 1 10 with last_sign_in_at := 100 } : ProfileRow).roles = none
    ∧ truthy (deriveUserName uMail) = true
    ∧ (handleUserProfile uMail 100 50 false [rowD 1 10]).store
        = [{ rowD 1 10 with
              name := some "a", roles := some ["trainer"], last_sign_in_at := 100 }] := by
  refine ⟨by decide, by decide, by decide, by decide, by decide⟩

/-! ### Route guard -/

/-- C9 (amended): for every request whose path is not on the allow-list
(the OAuth callback path and static-asset paths, which are served
unconditionally), the guard's decision is exactly the §4.3 table of the
pair (session valid, path is login route). -/
theorem guard_matches_table_off_allowlist (path : String) (s : Bool)
    (h1 : pathStarts path "/auth/callback" = false)
    (h2 : pathStarts path "/_next" = false)
    (h3 : pathStarts path "/favicon.ico" = false)
    (h4 : pathStarts path "/public" = false) :
    middleware path s = specGuardTable s (pathStarts path "/login") := by
  simp only [middleware, h1, h2, h3, h4]
  cases s <;> cases hl : pathStarts path "/login" <;>
    simp [hl, specGuardTable]

theorem guard_matches_table_witness :
    (pathStarts "/workouts" "/auth/callback" = false
      ∧ pathStarts "/workouts" "/_next" = false
      ∧ pathStarts "/workouts" "/favicon.ico" = false
      ∧ pathStarts "/workouts" "/public" = false) ∧
    middleware "/workouts" false = specGuardTable false (pathStarts "/workouts" "/login") :=
  ⟨⟨by decide, by decide, by decide, by decide⟩,
    guard_matches_table_off_allowlist "/workouts" false
      (by decide) (by decide) (by decide) (by decide)⟩

/-- C9 counterexample: a request for the OAuth callback path with no
valid session is served, whereas the decision table demands a redirect to
the login route for the (no session, not login path) combination — so the
table does not hold for every request. -/
theorem guard_table_fails_on_callback :
    middleware "/auth/callback" false = Decision.serve
    ∧ specGuardTable false (pathStarts "/auth/callback" "/login") = Decision.redirectLogin
    ∧ middleware "/auth/callback" false
        ≠ specGuardTable false (pathStarts "/auth/callback" "/login") := by
  refine ⟨by decide, by decide, by decide⟩
